import Mathlib

/-!
The sync_on_change tool (Go): configuration, checksum, sync and monitoring loop

A shallow embedding of `01- LINUX/tools/01-sync_tool/src/go/main.go`.

Conventions of the embedding

* Go strings are Lean strings (config files and paths are taken to be valid UTF-8 text);
  the string helpers work on the list of code points, which agrees with the byte-wise Go
  functions for the ASCII separators and cutsets used by the program.
* Go `int` is the 64-bit signed integer of the usual Linux targets; it is embedded as `Int`,
  and `Atoi` rejects every literal outside `[-2^63, 2^63 - 1]`, as `strconv.Atoi` does.
* The operating system is explicit: `FS` returns what `os.Stat`, `os.Open` + `bufio.Scanner`,
  `os.Open` + `io.Copy` and `filepath.Walk` deliver, `Env` what `os.Getwd`, `os.Executable`,
  `runtime.GOOS` and the `path/filepath` functions deliver, and external commands are an
  oracle from the command line to success or failure.
* Errors are carried as `Option String` / `Except String _`; logging is not modelled.
-/

namespace SyncTool

/-! ## Strings (package `strings`, `strconv`, `path/filepath`) -/

/-- The double quote character. -/
def dquote : Char := Char.ofNat 34

/-- White space as defined by `unicode.IsSpace`, the predicate behind `strings.TrimSpace`. -/
def isSpace (c : Char) : Bool :=
  let n := c.toNat
  (9 ≤ n && n ≤ 13) || n == 32 || n == 0x85 || n == 0xA0 || n == 0x1680 ||
    (0x2000 ≤ n && n ≤ 0x200A) || n == 0x2028 || n == 0x2029 || n == 0x202F ||
    n == 0x205F || n == 0x3000

/-- Drop every leading and every trailing element that satisfies `p`. -/
def trimFunc (p : Char → Bool) (l : List Char) : List Char :=
  ((l.dropWhile p).reverse.dropWhile p).reverse

/-- The function `strings.TrimSpace`. -/
def TrimSpace (s : String) : String := ⟨trimFunc isSpace s.data⟩

/-- The function `strings.Trim(s, cutset)`: all leading and trailing code points contained in
`cutset` are removed. -/
def Trim (s cutset : String) : String := ⟨trimFunc (fun c => cutset.data.contains c) s.data⟩

/-- The function `strings.HasPrefix`. -/
def HasPrefix (s pre : String) : Bool := pre.data.isPrefixOf s.data

/-- The function `strings.HasSuffix`. -/
def HasSuffix (s suf : String) : Bool := suf.data.reverse.isPrefixOf s.data.reverse

/-- The call `strings.SplitN(s, sep, 2)` for a one-character separator: the text before the
first separator and the text after it, or `s` alone when there is no separator. -/
def SplitN2 (s : String) (sep : Char) : List String :=
  match s.data.dropWhile (fun c => c != sep) with
  | [] => [s]
  | _ :: after => [⟨s.data.takeWhile (fun c => c != sep)⟩, ⟨after⟩]

/-- ASCII decimal digit. -/
def isDigit (c : Char) : Bool := 48 ≤ c.toNat && c.toNat ≤ 57

/-- Value of a run of decimal digits. -/
def digitsValue (ds : List Char) : Nat := ds.foldl (fun n c => 10 * n + (c.toNat - 48)) 0

/-- The function `strconv.Atoi` for a 64-bit `int`: an optional sign followed by at least one
decimal digit, within the range of `int`; `none` stands for a non-nil error. -/
def Atoi (s : String) : Option Int :=
  let neg : Bool := s.data.head? == some '-'
  let ds := match s.data with
    | '-' :: r => r
    | '+' :: r => r
    | r => r
  if ds.isEmpty || !ds.all isDigit then none
  else
    let n := digitsValue ds
    if neg then (if n ≤ 9223372036854775808 then some (-(n : Int)) else none)
    else (if n < 9223372036854775808 then some (n : Int) else none)

/-- The function `filepath.Base` for the separator `/`. -/
def Base (path : String) : String :=
  if path.data.isEmpty then "."
  else
    let stripped := (path.data.reverse.dropWhile (fun c => c == '/')).reverse
    let last := (stripped.reverse.takeWhile (fun c => c != '/')).reverse
    if last.isEmpty then "/" else ⟨last⟩

/-- The element stack of `filepath.Clean` for the separator `/`: `stack` holds the elements
kept so far, latest first; empty and `.` elements are dropped, a `..` element removes the
element before it, is dropped at the root, and is kept at the start of a relative path. -/
def cleanElems (rooted : Bool) : List (List Char) → List (List Char) → List (List Char)
  | stack, [] => stack.reverse
  | stack, e :: rest =>
    if e = [] ∨ e = ['.'] then cleanElems rooted stack rest
    else if e = ['.', '.'] then
      match stack with
      | top :: below =>
        if top = ['.', '.'] then cleanElems rooted (e :: stack) rest
        else cleanElems rooted below rest
      | [] => if rooted then cleanElems rooted [] rest else cleanElems rooted [e] rest
    else cleanElems rooted (e :: stack) rest

/-- The function `filepath.Clean` for the separator `/`. -/
def unixClean (path : String) : String :=
  let rooted : Bool := path.data.head? == some '/'
  let elems := cleanElems rooted [] (path.data.splitOn '/')
  let out := (if rooted then ['/'] else []) ++ List.intercalate ['/'] elems
  if out.isEmpty then "." else ⟨out⟩

/-- The function `filepath.Join` of two elements for the separator `/`. -/
def unixJoin (a b : String) : String :=
  if a ≠ "" then unixClean (a ++ "/" ++ b)
  else if b ≠ "" then unixClean b
  else ""

/-- The function `filepath.Dir` for the separator `/`: the cleaned text up to the last
separator. -/
def unixDir (path : String) : String :=
  unixClean ⟨(path.data.reverse.dropWhile (fun c => c != '/')).reverse⟩

/-! ## Configuration -/

/-- The struct `Config`. -/
structure Config where
  RemoteUser : String
  RemoteHost : String
  RemotePath : String
  Interval : Int
  MaxFailures : Int
  ConfigPath : String
  LoadedFrom : String
  deriving DecidableEq

/-- The function `defaultConfig`; fields not listed there hold the zero value. -/
def defaultConfig : Config :=
  { RemoteUser := "username"
    RemoteHost := "xxx.xxx.xxx.xxx"
    RemotePath := "~/scripts/"
    Interval := 3
    MaxFailures := 10
    ConfigPath := ""
    LoadedFrom := "" }

/-- What a `bufio.Scanner` over an opened file delivers: the successive values of
`scanner.Text()` and the final `scanner.Err()`. -/
structure Scanned where
  lines : List String
  err : Option String

/-- Result of `os.Stat`, reduced to what the program reads from it. -/
structure FileInfo where
  isDir : Bool

/-- One call of the walk function by `filepath.Walk`: the path, whether it is a directory, and
the error handed to the callback. -/
structure WalkEntry where
  path : String
  isDir : Bool
  err : Option String

/-- The file system as the program observes it. `stat` is `os.Stat`,
`scan` is `os.Open` followed by line scanning, `read` is `os.Open` followed by `io.Copy` (the
bytes of the file), `walk` lists the callbacks `filepath.Walk` makes as long as the callback
returns nil. -/
structure FS where
  stat : String → Except String FileInfo
  scan : String → Except String Scanned
  read : String → Except String (List Nat)
  walk : String → List WalkEntry

/-- Lines of a text as `bufio.ScanLines` cuts them: split at line feeds, one trailing carriage
return dropped, no empty token after the last line feed (lines within the token limit). -/
def ScanLines (content : String) : List String :=
  let dropCR := fun (l : List Char) =>
    match l.reverse with
    | '\r' :: r => r.reverse
    | _ => l
  let raw := content.data.splitOn '\n'
  let raw := if raw.getLast? = some [] then raw.dropLast else raw
  raw.map (fun l => ⟨dropCR l⟩)

/-- Lines 84-95 of `parseConfig`: the key and the value of a line, `none` for a line the loop
skips (blank, comment, no `=`). -/
def keyValue (text : String) : Option (String × String) :=
  let line := TrimSpace text
  if line = "" ∨ HasPrefix line "#" = true then none
  else
    match SplitN2 line '=' with
    | [k, v] => some (TrimSpace k, Trim (TrimSpace v) (String.singleton dquote))
    | _ => none

/-- The `switch key` of `parseConfig`. -/
def assign (config : Config) (key value : String) : Config :=
  if key = "remote_user" then { config with RemoteUser := value }
  else if key = "remote_host" then { config with RemoteHost := value }
  else if key = "remote_path" then { config with RemotePath := value }
  else if key = "interval" then
    match Atoi value with
    | some i => { config with Interval := i }
    | none => config
  else if key = "max_failures" then
    match Atoi value with
    | some i => { config with MaxFailures := i }
    | none => config
  else config

/-- Body of the scanning loop of `parseConfig` for one line. -/
def applyLine (config : Config) (text : String) : Config :=
  match keyValue text with
  | none => config
  | some (key, value) => assign config key value

/-- The scanning loop of `parseConfig`, started from `defaultConfig`. -/
def parseLines (lines : List String) : Config :=
  lines.foldl applyLine defaultConfig

/-- The function `parseConfig`: the configuration and the returned error. -/
def parseConfig (fs : FS) (path : String) : Config × Option String :=
  match fs.scan path with
  | .error e => (defaultConfig, some e)
  | .ok file => ({ parseLines file.lines with LoadedFrom := path }, file.err)

/-- The process environment read by `loadConfig`. `Join` and `Dir` are `filepath.Join` and
`filepath.Dir` of the platform. -/
structure Env where
  cwd : String
  executable : String
  GOOS : String
  Join : String → String → String
  Dir : String → String

/-- Name of the configuration file. -/
def confName : String := "sync_on_change.conf"

/-- The system-wide configuration file. -/
def systemConf : String := "/etc/sync_on_change/sync_on_change.conf"

/-- The variable `targetDir` of `loadConfig`. -/
def targetDir (env : Env) (fs : FS) (targetPath : String) : String :=
  if targetPath ≠ "" then
    match fs.stat targetPath with
    | .ok info => if info.isDir then targetPath else env.Dir targetPath
    | .error _ => ""
  else ""

/-- The slice `searchPaths` of `loadConfig`. -/
def searchPaths (env : Env) (fs : FS) (targetPath explicitConfigPath : String) : List String :=
  if explicitConfigPath ≠ "" then [explicitConfigPath]
  else
    let scriptDir := env.Dir env.executable
    let tdir := targetDir env fs targetPath
    let paths := [env.Join env.cwd confName, env.Join scriptDir confName]
    let paths := if tdir ≠ "" then paths ++ [env.Join tdir confName] else paths
    if env.GOOS ≠ "windows" then paths ++ [systemConf] else paths

/-- The `for _, path := range searchPaths` loop of `loadConfig`, with the fall-through result
`config`. -/
def tryPaths (fs : FS) (config : Config) : List String → Config × Option String
  | [] => (config, none)
  | path :: rest =>
    match fs.stat path with
    | .ok _ =>
      match parseConfig fs path with
      | (cfg, none) => ({ cfg with LoadedFrom := path }, none)
      | (_, some _) => tryPaths fs config rest
    | .error _ => tryPaths fs config rest

/-- The configuration `loadConfig` starts from. -/
def scriptDefaults : Config := { defaultConfig with LoadedFrom := "Script\x27s Defaults" }

/-- The function `loadConfig`. -/
def loadConfig (env : Env) (fs : FS) (targetPath explicitConfigPath : String) :
    Config × Option String :=
  tryPaths fs scriptDefaults (searchPaths env fs targetPath explicitConfigPath)

/-! ## SHA-256 (package `crypto/sha256`, FIPS 180-4) over bytes given as natural numbers -/

/-- Reduction to 32 bits. -/
def mask32 (x : Nat) : Nat := x % 4294967296

/-- Rotation of a 32-bit word to the right. -/
def rotr (n x : Nat) : Nat := mask32 ((x >>> n) ||| (x <<< (32 - n)))

/-- Round constants. -/
def sha256K : List Nat :=
  [1116352408, 1899447441, 3049323471, 3921009573, 961987163, 1508970993, 2453635748, 2870763221,
   3624381080, 310598401, 607225278, 1426881987, 1925078388, 2162078206, 2614888103, 3248222580,
   3835390401, 4022224774, 264347078, 604807628, 770255983, 1249150122, 1555081692, 1996064986,
   2554220882, 2821834349, 2952996808, 3210313671, 3336571891, 3584528711, 113926993, 338241895,
   666307205, 773529912, 1294757372, 1396182291, 1695183700, 1986661051, 2177026350, 2456956037,
   2730485921, 2820302411, 3259730800, 3345764771, 3516065817, 3600352804, 4094571909, 275423344,
   430227734, 506948616, 659060556, 883997877, 958139571, 1322822218, 1537002063, 1747873779,
   1955562222, 2024104815, 2227730452, 2361852424, 2428436474, 2756734187, 3204031479, 3329325298]

/-- Initial hash value. -/
def sha256Init : List Nat :=
  [1779033703, 3144134277, 1013904242, 2773480762, 1359893119, 2600822924, 528734635, 1541459225]

/-- Padding: the bit `1`, zeros up to 56 modulo 64 bytes, the bit length on 8 bytes. -/
def sha256Pad (msg : List Nat) : List Nat :=
  let bits := (8 * msg.length) % 18446744073709551616
  msg ++ [128] ++ List.replicate ((119 - msg.length % 64) % 64) 0
    ++ (List.range 8).map (fun i => (bits >>> (8 * (7 - i))) % 256)

/-- Big-endian 32-bit words of a byte list. -/
def beWords : List Nat → List Nat
  | a :: b :: c :: d :: rest =>
    ((((a % 256) * 256 + b % 256) * 256 + c % 256) * 256 + d % 256) :: beWords rest
  | _ => []

/-- One step of the message schedule over the reversed word list (latest word first). -/
def scheduleStep (rev : List Nat) : List Nat :=
  let w2 := rev.getD 1 0
  let w7 := rev.getD 6 0
  let w15 := rev.getD 14 0
  let w16 := rev.getD 15 0
  let s0 := rotr 7 w15 ^^^ rotr 18 w15 ^^^ (w15 >>> 3)
  let s1 := rotr 17 w2 ^^^ rotr 19 w2 ^^^ (w2 >>> 10)
  mask32 (s1 + w7 + s0 + w16) :: rev

/-- The 64 words of the message schedule of a 64-byte block. -/
def schedule (block : List Nat) : List Nat :=
  (Nat.iterate scheduleStep 48 (beWords block).reverse).reverse

/-- One round of the compression function on the working variables `a..h`. -/
def sha256Round (s : List Nat) (kw : Nat × Nat) : List Nat :=
  match s with
  | [a, b, c, d, e, f, g, h] =>
    let S1 := rotr 6 e ^^^ rotr 11 e ^^^ rotr 25 e
    let ch := (e &&& f) ^^^ ((4294967295 - e) &&& g)
    let t1 := mask32 (h + S1 + ch + kw.1 + kw.2)
    let S0 := rotr 2 a ^^^ rotr 13 a ^^^ rotr 22 a
    let maj := (a &&& b) ^^^ (a &&& c) ^^^ (b &&& c)
    let t2 := mask32 (S0 + maj)
    [mask32 (t1 + t2), a, b, c, mask32 (d + t1), e, f, g]
  | _ => s

/-- Compression of one block into the chaining value. -/
def sha256Block (h : List Nat) (block : List Nat) : List Nat :=
  List.zipWith (fun x y => mask32 (x + y)) h
    ((sha256K.zip (schedule block)).foldl sha256Round h)

/-- Compression of the first `n` blocks of a byte list. -/
def sha256Blocks : Nat → List Nat → List Nat → List Nat
  | 0, h, _ => h
  | n + 1, h, bytes => sha256Blocks n (sha256Block h (bytes.take 64)) (bytes.drop 64)

/-- Big-endian bytes of a 32-bit word. -/
def wordBytes (w : Nat) : List Nat :=
  [(w >>> 24) % 256, (w >>> 16) % 256, (w >>> 8) % 256, w % 256]

/-- The digest `sha256.Sum256` of a message: 32 bytes. A `hash.Hash` obtained from
`sha256.New()` returns from `Sum(nil)` the digest of everything written to it. -/
def sha256 (msg : List Nat) : List Nat :=
  let p := sha256Pad msg
  (sha256Blocks (p.length / 64) sha256Init p).flatMap wordBytes

/-- Lower-case hexadecimal digit. -/
def hexDigit (n : Nat) : Char := "0123456789abcdef".data.getD n '0'

/-- The formatting `fmt.Sprintf("%x", bytes)`: two lower-case digits per byte. -/
def hexEncode (bytes : List Nat) : String :=
  ⟨bytes.flatMap (fun b => [hexDigit (b / 16 % 16), hexDigit (b % 16)])⟩

/-- The conversion `[]byte(s)` of an ASCII string. -/
def stringBytes (s : String) : List Nat := s.data.map Char.toNat

/-! ## Checksums -/

/-- The function `hashFile`. -/
def hashFile (fs : FS) (path : String) : Except String String :=
  match fs.read path with
  | .error e => .error e
  | .ok content => .ok (hexEncode (sha256 content))

/-- The callback given to `filepath.Walk` in `calculateChecksum`; `written` is what has been
written to the running hash so far. -/
def walkFn (fs : FS) (written : List Nat) (e : WalkEntry) : Except String (List Nat) :=
  match e.err with
  | some err => .error err
  | none =>
    if !e.isDir then
      match hashFile fs e.path with
      | .error err => .error err
      | .ok fileHash => .ok (written ++ stringBytes fileHash)
    else .ok written

/-- The walk: the callback is applied to the entries in order and the first error stops it. -/
def walkAll (fs : FS) : List Nat → List WalkEntry → Except String (List Nat)
  | written, [] => .ok written
  | written, e :: rest =>
    match walkFn fs written e with
    | .error err => .error err
    | .ok written1 => walkAll fs written1 rest

/-- The function `calculateChecksum`. -/
def calculateChecksum (fs : FS) (path : String) : Except String String :=
  match fs.stat path with
  | .error e => .error e
  | .ok info =>
    if info.isDir then
      match walkAll fs [] (fs.walk path) with
      | .error e => .error e
      | .ok written => .ok (hexEncode (sha256 written))
    else hashFile fs path

/-! ## Synchronisation -/

/-- The function `syncTarget`. `run` is `runCommand`; the result is the returned flag and the
commands that were run, in order, each with its outcome. -/
def syncTarget (fs : FS) (run : String → Bool) (targetPath : String) (config : Config) :
    Bool × List (String × Bool) :=
  let remote := config.RemoteUser ++ "@" ++ config.RemoteHost
  match fs.stat targetPath with
  | .error _ => (false, [])
  | .ok info =>
    if info.isDir then
      let remotePath :=
        if !HasSuffix config.RemotePath "/" then config.RemotePath ++ "/" else config.RemotePath
      let rsyncCmd := "rsync -avz --delete \x27" ++ targetPath ++ "/\x27 \x27" ++ remote ++ ":"
        ++ remotePath ++ "\x27"
      if run rsyncCmd then
        let chmodCmd := "ssh " ++ remote ++ " \x22find " ++ config.RemotePath
          ++ " -name \x27*.sh\x27 -exec chmod +x \x7b\x7d +\x22"
        (true, [(rsyncCmd, true), (chmodCmd, run chmodCmd)])
      else (false, [(rsyncCmd, false)])
    else
      let scpCmd := "scp \x27" ++ targetPath ++ "\x27 \x27" ++ remote ++ ":" ++ config.RemotePath
        ++ "\x27"
      if run scpCmd then
        let fileName := Base targetPath
        let chmodCmd := "ssh " ++ remote ++ " \x27chmod +x " ++ config.RemotePath ++ fileName
          ++ "\x27"
        (true, [(scpCmd, true), (chmodCmd, run chmodCmd)])
      else (false, [(scpCmd, false)])

/-! ## Monitoring loop of `main` -/

/-- The variables `lastChecksum` and `failCount` of `main`. -/
structure LoopState where
  lastChecksum : String
  failCount : Int
  deriving DecidableEq

/-- What one iteration of the loop observes: the result of `calculateChecksum(targetPath)` and
the flag `syncTarget(targetPath, config)` returns if it is called in this iteration. -/
structure Cycle where
  checksum : Except String String
  syncOk : Bool

/-- The process after an iteration: still in the loop, or terminated by `os.Exit`. -/
inductive Proc where
  | running (s : LoopState)
  | exited (code : Int)
  deriving DecidableEq

/-- One iteration of the `for` loop of `main` (lines 398-420; the sleep has no effect on the
state). The second component records the sync made in this iteration, if any, and its
outcome. -/
def cycleStep (maxFailures : Int) (s : LoopState) (c : Cycle) : Proc × Option Bool :=
  match c.checksum with
  | .error _ => (.running s, none)
  | .ok currentChecksum =>
    if currentChecksum ≠ s.lastChecksum then
      if c.syncOk then
        (.running { lastChecksum := currentChecksum, failCount := 0 }, some true)
      else
        let failCount := s.failCount + 1
        if failCount ≥ maxFailures then (.exited 1, some false)
        else (.running { s with failCount := failCount }, some false)
    else (.running s, none)

/-- The loop over a finite sequence of iterations; nothing runs after `os.Exit`. The second
component has one entry per iteration that was run. -/
def runCycles (maxFailures : Int) : Proc → List Cycle → Proc × List (Option Bool)
  | .exited code, _ => (.exited code, [])
  | .running s, [] => (.running s, [])
  | .running s, c :: cs =>
    let r := cycleStep maxFailures s c
    let rest := runCycles maxFailures r.1 cs
    (rest.1, r.2 :: rest.2)

/-- The assignment `lastChecksum, _ := calculateChecksum(targetPath)`: the error is dropped and
leaves the empty string. -/
def initialChecksum (initial : Except String String) : String :=
  match initial with
  | .ok d => d
  | .error _ => ""

/-- Lines 386-420 of `main`: the initial checksum (an error leaves `lastChecksum` empty), the
initial sync (a failure exits with status 1), then the loop with `failCount` at 0. -/
def monitor (maxFailures : Int) (initial : Except String String) (initialSyncOk : Bool)
    (cycles : List Cycle) : Proc × List (Option Bool) :=
  let lastChecksum := initialChecksum initial
  if !initialSyncOk then (.exited 1, [])
  else runCycles maxFailures (.running { lastChecksum := lastChecksum, failCount := 0 }) cycles

/-- The outcomes of the syncs made during a run, in order. -/
def syncOutcomes (trace : List (Option Bool)) : List Bool := trace.filterMap id


/-! ## Vocabulary of the statements and sample inputs -/

/-- The iteration computes a digest and it differs from the baseline `last`. -/
def changed (last : String) (c : Cycle) : Bool :=
  match c.checksum with
  | .ok d => d != last
  | .error _ => false

/-- The value as the specification words it: at most one pair of enclosing double quotes is
removed from the trimmed text. -/
def stripOnePair (s : String) : String :=
  match s.data with
  | [] => s
  | c :: rest =>
    if c = dquote ∧ rest.getLast? = some dquote then ⟨rest.dropLast⟩ else s

/-- The string values the lines give to the setting `name`, in file order. -/
def settings (name : String) (lines : List String) : List String :=
  lines.filterMap (fun text =>
    match keyValue text with
    | some (k, v) => if k = name then some v else none
    | none => none)

/-- The integer values the lines give to the setting `name`, in file order: the values of the
lines naming it that parse as an integer. -/
def intSettings (name : String) (lines : List String) : List Int :=
  lines.filterMap (fun text =>
    match keyValue text with
    | some (k, v) => if k = name then Atoi v else none
    | none => none)

/-- A file system holding one regular file, `path`, whose scan yields `lines`. -/
def singleFile (path : String) (lines : List String) : FS :=
  { stat := fun p => if p = path then .ok { isDir := false } else .error "no such file"
    scan := fun p => if p = path then .ok { lines := lines, err := none } else .error "no such file"
    read := fun _ => .error "not modelled"
    walk := fun _ => [] }

/-- The candidate exists (`os.Stat` succeeds) and `parseConfig` returns no error for it. -/
def usable (fs : FS) (path : String) : Bool :=
  (match fs.stat path with
    | .ok _ => true
    | .error _ => false) && (parseConfig fs path).2.isNone

/-- A Linux environment: working directory `/work`, executable in `/opt/tool`. -/
def linuxEnv : Env :=
  { cwd := "/work"
    executable := "/opt/tool/sync_on_change"
    GOOS := "linux"
    Join := unixJoin
    Dir := unixDir }

/-- A file system with the directory `/work/proj`, the script `/work/proj/script.sh`, a
configuration file next to the script and a system-wide configuration file. -/
def projectFS : FS :=
  { stat := fun p =>
      if p = "/work/proj" then .ok { isDir := true }
      else if p = "/work/proj/script.sh" ∨ p = "/work/proj/sync_on_change.conf"
          ∨ p = "/etc/sync_on_change/sync_on_change.conf" then .ok { isDir := false }
      else .error "no such file"
    scan := fun p =>
      if p = "/work/proj/sync_on_change.conf" then
        .ok { lines := ["remote_user=project", "interval=4"], err := none }
      else if p = "/etc/sync_on_change/sync_on_change.conf" then
        .ok { lines := ["remote_user=system"], err := none }
      else .error "no such file"
    read := fun _ => .error "not modelled"
    walk := fun _ => [] }

/-- The list `t` is the list `s` without its leading and its trailing elements that satisfy
`p`: `s` is `t` between two runs of such elements, and `t` neither starts nor ends with
one. -/
def IsTrim (p : Char → Bool) (s t : List Char) : Prop :=
  ∃ a b, s = a ++ t ++ b ∧ (∀ c ∈ a, p c = true) ∧ (∀ c ∈ b, p c = true) ∧
    (∀ c, t.head? = some c → p c = false) ∧ (∀ c, t.getLast? = some c → p c = false)

/-- The line `text` names the setting `name` with the value `value`: once trimmed of white
space it is not blank and does not begin with `#`; it holds a `=`, and the text before the
first `=`, trimmed, is `name`; the text after the first `=`, trimmed of white space and then of
double quotes at both ends, is `value`. -/
def Sets (name text value : String) : Prop :=
  ∃ line before after inner : List Char,
    IsTrim isSpace text.data line ∧ line ≠ [] ∧ line.head? ≠ some '#' ∧
    line = before ++ '=' :: after ∧ '=' ∉ before ∧
    IsTrim isSpace before name.data ∧
    IsTrim isSpace after inner ∧ IsTrim (fun c => c == dquote) inner value.data

/-- The last line of `lines` that names the setting `name` gives it the value `value`. -/
def LastSets (name : String) (lines : List String) (value : String) : Prop :=
  ∃ pre text post, lines = pre ++ text :: post ∧ Sets name text value ∧
    ∀ t ∈ post, ∀ w, ¬ Sets name t w

/-- The last line of `lines` that names the setting `name` with a value that parses as an
integer gives it the integer `i`. -/
def LastSetsInt (name : String) (lines : List String) (i : Int) : Prop :=
  ∃ pre text post value, lines = pre ++ text :: post ∧ Sets name text value ∧
    Atoi value = some i ∧ ∀ t ∈ post, ∀ w j, Sets name t w → Atoi w ≠ some j

/-- A directory `d` holding one empty regular file `d/a`. -/
def oneEmptyFile : FS :=
  { stat := fun p =>
      if p = "d" then .ok { isDir := true }
      else if p = "d/a" then .ok { isDir := false } else .error "no such file"
    scan := fun _ => .error "not modelled"
    read := fun p => if p = "d/a" then .ok [] else .error "no such file"
    walk := fun p =>
      if p = "d" then [{ path := "d", isDir := true, err := none },
        { path := "d/a", isDir := false, err := none }] else [] }

/-! ## The monitoring loop: circuit breaker, counter reset, one sync per change -/

theorem runCycles_exited (N : Int) (code : Int) (cycles : List Cycle) :
    runCycles N (.exited code) cycles = (.exited code, []) := by
  cases cycles <;> rfl

theorem cycleStep_unchanged (N : Int) (s : LoopState) (c : Cycle)
    (h : changed s.lastChecksum c = false) : cycleStep N s c = (.running s, none) := by
  unfold changed at h
  unfold cycleStep
  cases hc : c.checksum with
  | error e => simp
  | ok d =>
    simp only [hc] at h
    have : d = s.lastChecksum := by simpa using h
    simp [this]

theorem cycleStep_failed (N : Int) (s : LoopState) (c : Cycle)
    (h : changed s.lastChecksum c = true) (hs : c.syncOk = false) :
    cycleStep N s c =
      if s.failCount + 1 ≥ N then (.exited 1, some false)
      else (.running { s with failCount := s.failCount + 1 }, some false) := by
  unfold changed at h
  unfold cycleStep
  cases hc : c.checksum with
  | error e => simp [hc] at h
  | ok d =>
    simp only [hc] at h
    have : d ≠ s.lastChecksum := by simpa using h
    simp [this, hs]

theorem cycleStep_synced (N : Int) (s : LoopState) (c : Cycle) (d : String)
    (hd : c.checksum = .ok d) (hne : d ≠ s.lastChecksum) (hs : c.syncOk = true) :
    cycleStep N s c = (.running { lastChecksum := d, failCount := 0 }, some true) := by
  unfold cycleStep
  simp [hd, hne, hs]

theorem failing_run (N : Int) (last : String) (cycles : List Cycle)
    (hfail : ∀ c ∈ cycles, c.syncOk = false) :
    ∀ f : Int, 0 ≤ f → f < N →
      ((f + ((cycles.filter (changed last)).length : Int) < N →
          (runCycles N (.running ⟨last, f⟩) cycles).1
              = .running ⟨last, f + ((cycles.filter (changed last)).length : Int)⟩ ∧
            syncOutcomes (runCycles N (.running ⟨last, f⟩) cycles).2
              = List.replicate (cycles.filter (changed last)).length false ∧
            (runCycles N (.running ⟨last, f⟩) cycles).2.length = cycles.length) ∧
        (N ≤ f + ((cycles.filter (changed last)).length : Int) →
          (runCycles N (.running ⟨last, f⟩) cycles).1 = .exited 1 ∧
            syncOutcomes (runCycles N (.running ⟨last, f⟩) cycles).2
              = List.replicate (N - f).toNat false ∧
            (runCycles N (.running ⟨last, f⟩) cycles).2.getLast? = some (some false))) := by
  induction cycles with
  | nil =>
    intro f h0 hN
    simp [runCycles, syncOutcomes]
    omega
  | cons c cs ih =>
    intro f h0 hN
    have hcs : ∀ c ∈ cs, c.syncOk = false := fun x hx => hfail x (List.mem_cons_of_mem _ hx)
    have hc : c.syncOk = false := hfail c (List.mem_cons_self _ _)
    cases hch : changed last c with
    | false =>
      have hstep := cycleStep_unchanged N ⟨last, f⟩ c hch
      have := ih hcs f h0 hN
      simp only [runCycles, hstep, List.filter_cons, hch, syncOutcomes, List.length_cons] at this ⊢
      refine ⟨fun h => ?_, fun h => ?_⟩
      · obtain ⟨h1, h2, h3⟩ := this.1 h
        refine ⟨h1, ?_, by simp [h3]⟩
        simpa using h2
      · obtain ⟨h1, h2, h3⟩ := this.2 h
        refine ⟨h1, by simpa using h2, ?_⟩
        rw [List.getLast?_cons, h3]; rfl
    | true =>
      have hstep := cycleStep_failed N ⟨last, f⟩ c hch hc
      simp only at hstep
      by_cases hex : f + 1 ≥ N
      · rw [if_pos hex] at hstep
        have hNf : (N - f).toNat = 1 := by omega
        simp only [runCycles, hstep, runCycles_exited, List.filter_cons, hch, syncOutcomes]
        refine ⟨fun h => ?_, fun _ => ?_⟩
        · simp at h; omega
        · simp [hNf]
      · rw [if_neg hex] at hstep
        have := ih hcs (f + 1) (by omega) (by omega)
        simp only [runCycles, hstep, List.filter_cons, hch, syncOutcomes, List.length_cons,
          if_true] at this ⊢
        have hNf : (N - f).toNat = (N - (f + 1)).toNat + 1 := by omega
        refine ⟨fun h => ?_, fun h => ?_⟩
        · obtain ⟨h1, h2, h3⟩ := this.1 (by push_cast at h ⊢; omega)
          refine ⟨?_, ?_, by simp [h3]⟩
          · rw [h1]; push_cast; congr 2; omega
          · simp [h2, List.replicate_succ]
        · obtain ⟨h1, h2, h3⟩ := this.2 (by push_cast at h ⊢; omega)
          refine ⟨h1, ?_, ?_⟩
          · simp [h2, hNf, List.replicate_succ]
          · rw [List.getLast?_cons, h3]; rfl

theorem exit_needs_failures (N : Int) (cycles : List Cycle) :
    ∀ s : LoopState, 0 ≤ s.failCount →
      ∀ code, (runCycles N (.running s) cycles).1 = .exited code →
        (List.replicate (N - s.failCount).toNat false
            <+: syncOutcomes (runCycles N (.running s) cycles).2) ∨
          (List.replicate N.toNat false <:+: syncOutcomes (runCycles N (.running s) cycles).2) := by
  induction cycles with
  | nil => intro s _ code h; simp [runCycles] at h
  | cons c cs ih =>
    intro s h0 code h
    cases hch : changed s.lastChecksum c with
    | false =>
      have hstep := cycleStep_unchanged N s c hch
      simp only [runCycles, hstep] at h ⊢
      simpa [syncOutcomes] using ih s h0 code h
    | true =>
      cases hs : c.syncOk with
      | false =>
        have hstep := cycleStep_failed N s c hch hs
        by_cases hex : s.failCount + 1 ≥ N
        · rw [if_pos hex] at hstep
          simp only [runCycles, hstep, runCycles_exited, syncOutcomes]
          left
          have : (N - s.failCount).toNat = 0 ∨ (N - s.failCount).toNat = 1 := by omega
          rcases this with h1 | h1 <;> simp [h1]
        · rw [if_neg hex] at hstep
          simp only [runCycles, hstep] at h ⊢
          have hNf : (N - s.failCount).toNat = (N - (s.failCount + 1)).toNat + 1 := by omega
          rcases ih { s with failCount := s.failCount + 1 } (by simp; omega) code h with h1 | h1
          · left
            simp only [syncOutcomes] at h1 ⊢
            simp only [List.filterMap_cons, id, hNf, List.replicate_succ]
            exact (List.prefix_cons_inj false).2 h1
          · right
            simp only [syncOutcomes] at h1 ⊢
            simp only [List.filterMap_cons, id]
            exact h1.trans (List.suffix_cons _ _).isInfix
      | true =>
        unfold changed at hch
        cases hc : c.checksum with
        | error e => simp [hc] at hch
        | ok d =>
          simp only [hc] at hch
          have hne : d ≠ s.lastChecksum := by simpa using hch
          have hstep := cycleStep_synced N s c d hc hne hs
          simp only [runCycles, hstep] at h ⊢
          right
          simp only [syncOutcomes, List.filterMap_cons, id]
          have := ih { lastChecksum := d, failCount := 0 } (by simp) code h
          simp only [syncOutcomes, sub_zero] at this
          rcases this with h1 | h1
          · exact h1.isInfix.trans (List.suffix_cons _ _).isInfix
          · exact h1.trans (List.suffix_cons _ _).isInfix

theorem runCycles_unchanged (N : Int) (s : LoopState) (cycles : List Cycle)
    (h : ∀ c ∈ cycles, changed s.lastChecksum c = false) :
    runCycles N (.running s) cycles = (.running s, List.replicate cycles.length none) := by
  induction cycles with
  | nil => rfl
  | cons c cs ih =>
    have hstep := cycleStep_unchanged N s c (h c (List.mem_cons_self _ _))
    have := ih (fun x hx => h x (List.mem_cons_of_mem _ hx))
    simp [runCycles, hstep, this, List.replicate_succ]

theorem runCycles_append_unchanged (N : Int) (s : LoopState) (pre rest : List Cycle)
    (h : ∀ c ∈ pre, changed s.lastChecksum c = false) :
    runCycles N (.running s) (pre ++ rest) =
      ((runCycles N (.running s) rest).1,
        List.replicate pre.length none ++ (runCycles N (.running s) rest).2) := by
  induction pre with
  | nil => simp
  | cons c cs ih =>
    have hstep := cycleStep_unchanged N s c (h c (List.mem_cons_self _ _))
    have := ih (fun x hx => h x (List.mem_cons_of_mem _ hx))
    simp [runCycles, hstep, this, List.replicate_succ]

/-- C1. Circuit breaker: with `max_failures = N ≥ 1` and the failure counter at 0 after the
initial sync, a run in which every sync fails keeps watching (counter `k`, `k` syncs made) as
long as the number `k` of iterations that saw a changed digest is below `N`, and once there are
`N` of them the process has exited with status 1, exactly `N` syncs were made, and the last
iteration that ran is the one of the `N`-th failed sync. -/
theorem circuit_breaker (N : Int) (hN : 1 ≤ N) (initial : Except String String)
    (cycles : List Cycle) (hfail : ∀ c ∈ cycles, c.syncOk = false) :
    (((cycles.filter (changed (initialChecksum initial))).length : Int) < N →
        (monitor N initial true cycles).1
            = .running ⟨initialChecksum initial,
                ((cycles.filter (changed (initialChecksum initial))).length : Int)⟩ ∧
          syncOutcomes (monitor N initial true cycles).2
            = List.replicate (cycles.filter (changed (initialChecksum initial))).length false ∧
          (monitor N initial true cycles).2.length = cycles.length) ∧
      (N ≤ ((cycles.filter (changed (initialChecksum initial))).length : Int) →
        (monitor N initial true cycles).1 = .exited 1 ∧
          syncOutcomes (monitor N initial true cycles).2 = List.replicate N.toNat false ∧
          (monitor N initial true cycles).2.getLast? = some (some false)) := by
  have h := failing_run N (initialChecksum initial) cycles hfail 0 le_rfl (by omega)
  simpa [monitor] using h

/-- C1, instance: `max_failures = 3`, four iterations each seeing a changed digest and a
failing sync: exit with status 1 after exactly three syncs. -/
theorem circuit_breaker_witness :
    (1 : Int) ≤ 3 ∧
      (monitor 3 (.ok "a") true (List.replicate 4 ⟨.ok "b", false⟩)).1 = .exited 1 ∧
      syncOutcomes (monitor 3 (.ok "a") true (List.replicate 4 ⟨.ok "b", false⟩)).2
        = List.replicate (3 : Int).toNat false ∧
      (monitor 3 (.ok "a") true (List.replicate 4 ⟨.ok "b", false⟩)).2.getLast?
        = some (some false) :=
  ⟨by decide,
    (circuit_breaker 3 (by decide) (.ok "a") (List.replicate 4 ⟨.ok "b", false⟩)
      (by decide)).2 (by decide)⟩

/-- C2. Counter reset: whatever the failure count, an iteration whose sync succeeds leaves the
counter at 0 (and the baseline at the new digest); and a run whose sync outcomes never contain
`max_failures` failures in a row does not terminate the process. -/
theorem counter_reset (N : Int) :
    (∀ (s : LoopState) (c : Cycle) (d : String), c.checksum = .ok d → d ≠ s.lastChecksum →
        c.syncOk = true →
        cycleStep N s c = (.running { lastChecksum := d, failCount := 0 }, some true)) ∧
      (∀ (initial : Except String String) (cycles : List Cycle),
        ¬ (List.replicate N.toNat false <:+: syncOutcomes (monitor N initial true cycles).2) →
        ∃ s, (monitor N initial true cycles).1 = .running s) := by
  refine ⟨fun s c d hd hne hs => cycleStep_synced N s c d hd hne hs, ?_⟩
  intro initial cycles hno
  cases hp : (monitor N initial true cycles).1 with
  | running s => exact ⟨s, rfl⟩
  | exited code =>
    exfalso
    apply hno
    simp only [monitor, Bool.not_true, Bool.false_eq_true, if_false] at hp ⊢
    rcases exit_needs_failures N cycles ⟨initialChecksum initial, 0⟩ le_rfl code hp with h | h
    · simpa using h.isInfix
    · exact h

/-- C2, instance: `max_failures = 3`; two failures, a success, two more failures: still
running. -/
theorem counter_reset_witness :
    ¬ (List.replicate (3 : Int).toNat false <:+:
        syncOutcomes (monitor 3 (.ok "a") true
          [⟨.ok "b", false⟩, ⟨.ok "b", false⟩, ⟨.ok "b", true⟩, ⟨.ok "c", false⟩,
            ⟨.ok "c", false⟩]).2) ∧
      ∃ s, (monitor 3 (.ok "a") true
          [⟨.ok "b", false⟩, ⟨.ok "b", false⟩, ⟨.ok "b", true⟩, ⟨.ok "c", false⟩,
            ⟨.ok "c", false⟩]).1 = .running s :=
  ⟨by decide, (counter_reset 3).2 (.ok "a") _ (by decide)⟩

/-- C3. One change, one sync: the baseline `d0` was computed, the initial sync succeeded, the
iterations `before` see no change (digest `d0`, or a checksum error), the iteration `first`
sees `d1 ≠ d0`, the iterations `after` see no further change (digest `d1`, or a checksum
error), and every sync succeeds. Then exactly one sync is made, in `first`; no other iteration
makes one; the loop is still running with baseline `d1` and the failure counter at 0. -/
theorem one_change_one_sync (N : Int) (d0 d1 : String) (before after : List Cycle)
    (first : Cycle) (hne : d1 ≠ d0)
    (hbefore : ∀ c ∈ before, changed d0 c = false)
    (hfirst : first.checksum = .ok d1)
    (hafter : ∀ c ∈ after, changed d1 c = false)
    (hsync : first.syncOk = true) :
    monitor N (.ok d0) true (before ++ first :: after) =
      (.running { lastChecksum := d1, failCount := 0 },
        List.replicate before.length none ++ some true :: List.replicate after.length none) := by
  have h1 := runCycles_append_unchanged N ⟨d0, 0⟩ before (first :: after) hbefore
  have h2 := cycleStep_synced N ⟨d0, 0⟩ first d1 hfirst hne hsync
  have h3 := runCycles_unchanged N ⟨d1, 0⟩ after hafter
  simp [monitor, initialChecksum, h1, runCycles, h2, h3]

/-- C3, instance: digest `a`, `a`, then `b` three times. -/
theorem one_change_one_sync_witness :
    ("b" : String) ≠ "a" ∧
      monitor 3 (.ok "a") true
          ([⟨.ok "a", true⟩] ++ ⟨.ok "b", true⟩ :: [⟨.ok "b", true⟩, ⟨.ok "b", true⟩]) =
        (.running { lastChecksum := "b", failCount := 0 },
          List.replicate [(⟨.ok "a", true⟩ : Cycle)].length none ++
            some true :: List.replicate [(⟨.ok "b", true⟩ : Cycle), ⟨.ok "b", true⟩].length none) :=
  ⟨by decide,
    one_change_one_sync 3 "a" "b" [⟨.ok "a", true⟩] [⟨.ok "b", true⟩, ⟨.ok "b", true⟩]
      ⟨.ok "b", true⟩ (by decide) (by decide) rfl (by decide) rfl⟩

/-! ## Configuration parsing -/

theorem head_dropWhile_false (p : Char → Bool) (l : List Char) (c : Char)
    (h : (l.dropWhile p).head? = some c) : p c = false := by
  have := List.head?_dropWhile_not p l
  rw [h] at this
  exact this

theorem trimFunc_spec (p : Char → Bool) (l : List Char) :
    ∃ a b, l = a ++ trimFunc p l ++ b ∧ (∀ c ∈ a, p c = true) ∧ (∀ c ∈ b, p c = true) ∧
      (∀ c, (trimFunc p l).head? = some c → p c = false) ∧
      (∀ c, (trimFunc p l).getLast? = some c → p c = false) := by
  refine ⟨l.takeWhile p, ((l.dropWhile p).reverse.takeWhile p).reverse, ?_, ?_, ?_, ?_, ?_⟩
  · have h1 : (l.dropWhile p).reverse =
        (l.dropWhile p).reverse.takeWhile p ++ (l.dropWhile p).reverse.dropWhile p :=
      (List.takeWhile_append_dropWhile p _).symm
    have h2 : l.dropWhile p = trimFunc p l ++ ((l.dropWhile p).reverse.takeWhile p).reverse := by
      have := congrArg List.reverse h1
      rw [List.reverse_reverse, List.reverse_append] at this
      exact this
    rw [List.append_assoc, ← h2, List.takeWhile_append_dropWhile]
  · intro c hc
    exact (List.mem_takeWhile_imp hc)
  · intro c hc
    exact List.mem_takeWhile_imp (List.mem_reverse.1 hc)
  · intro c hc
    have hpre : trimFunc p l <+: l.dropWhile p := by
      have := (List.dropWhile_suffix (l := (l.dropWhile p).reverse) p)
      simpa [trimFunc] using List.reverse_prefix.2 this
    obtain ⟨t, ht⟩ := hpre
    apply head_dropWhile_false p l c
    rw [← ht]
    simp [hc]
  · intro c hc
    apply head_dropWhile_false p (l.dropWhile p).reverse c
    simpa [trimFunc] using hc

theorem SplitN2_pair (s : String) (sep : Char) (k v : String) (h : SplitN2 s sep = [k, v]) :
    s.data = k.data ++ sep :: v.data ∧ sep ∉ k.data := by
  unfold SplitN2 at h
  have hsplit := List.takeWhile_append_dropWhile (fun c => c != sep) s.data
  cases hd : s.data.dropWhile (fun c => c != sep) with
  | nil => simp [hd] at h
  | cons x after =>
    simp only [hd, List.cons.injEq, and_true] at h
    obtain ⟨hk, hv⟩ := h
    have hx : x = sep := by
      have := head_dropWhile_false (fun c => c != sep) s.data x (by simp [hd])
      simpa using this
    subst hk hv
    refine ⟨?_, ?_⟩
    · rw [hd, hx] at hsplit
      exact hsplit.symm
    · intro hmem
      have := List.mem_takeWhile_imp hmem
      simp at this

/-- C6, as stated, fails: for the line `remote_path=""a""` the program stores `a`, while
stripping one pair of quotes would keep the inner quotes and store `"a"`. -/
theorem value_extraction_counterexample :
    keyValue "remote_path=\x22\x22a\x22\x22" = some ("remote_path", "a") ∧
      stripOnePair (TrimSpace "\x22\x22a\x22\x22") = "\x22a\x22" ∧
      (parseLines ["remote_path=\x22\x22a\x22\x22"]).RemotePath
        ≠ stripOnePair (TrimSpace "\x22\x22a\x22\x22") := by
  decide

/-- C6, amended. For every line that yields a key and a value: the trimmed line is cut at its
first `=` (the key part holds no `=`, later `=` stay in the value part), the key is the
trimmed key part, and the value is the trimmed value part with all leading and all trailing
double quotes removed, nothing else: it neither starts nor ends with a double quote, and
double quotes in its interior are kept. -/
theorem value_extraction (text k v : String) (h : keyValue text = some (k, v)) :
    ∃ before after : List Char,
      (TrimSpace text).data = before ++ '=' :: after ∧ '=' ∉ before ∧
      k = TrimSpace ⟨before⟩ ∧
      ∃ m n : Nat,
        (TrimSpace ⟨after⟩).data = List.replicate m dquote ++ v.data ++ List.replicate n dquote ∧
        v.data.head? ≠ some dquote ∧ v.data.getLast? ≠ some dquote := by
  unfold keyValue at h
  simp only at h
  split_ifs at h with hskip
  split at h
  · rename_i k0 v0 hsplit
    simp only [Option.some.injEq, Prod.mk.injEq] at h
    obtain ⟨hk, hv⟩ := h
    obtain ⟨hdata, hnot⟩ := SplitN2_pair _ _ _ _ hsplit
    refine ⟨k0.data, v0.data, hdata, hnot, hk.symm, ?_⟩
    obtain ⟨a, b, hab, ha, hb, hhead, hlast⟩ :=
      trimFunc_spec (fun c => (String.singleton dquote).data.contains c) (TrimSpace v0).data
    have hvd : v.data = trimFunc (fun c => (String.singleton dquote).data.contains c)
        (TrimSpace v0).data := by
      rw [← hv]; rfl
    have hq : ∀ c, (String.singleton dquote).data.contains c = true ↔ c = dquote := by
      intro c
      simp [String.singleton]
    refine ⟨a.length, b.length, ?_, ?_, ?_⟩
    · have ha2 : a = List.replicate a.length dquote :=
        List.eq_replicate_iff.2 ⟨rfl, fun c hc => (hq c).1 (ha c hc)⟩
      have hb2 : b = List.replicate b.length dquote :=
        List.eq_replicate_iff.2 ⟨rfl, fun c hc => (hq c).1 (hb c hc)⟩
      rw [hvd, ← ha2, ← hb2]
      exact hab
    · intro hc
      rw [hvd] at hc
      have := hhead dquote hc
      rw [(hq dquote).2 rfl] at this
      exact Bool.noConfusion this
    · intro hc
      rw [hvd] at hc
      have := hlast dquote hc
      rw [(hq dquote).2 rfl] at this
      exact Bool.noConfusion this
  · exact Option.noConfusion h

/-- C6, instance: the quoted path of the test configuration, with a later `=` in the value. -/
theorem value_extraction_witness :
    keyValue " remote_path = \x22/home/user/scripts?a=b\x22 "
        = some ("remote_path", "/home/user/scripts?a=b") ∧
      ∃ before after : List Char,
        (TrimSpace " remote_path = \x22/home/user/scripts?a=b\x22 ").data
            = before ++ '=' :: after ∧ '=' ∉ before ∧
        "remote_path" = TrimSpace ⟨before⟩ ∧
        ∃ m n : Nat,
          (TrimSpace ⟨after⟩).data = List.replicate m dquote
              ++ ("/home/user/scripts?a=b" : String).data ++ List.replicate n dquote ∧
          ("/home/user/scripts?a=b" : String).data.head? ≠ some dquote ∧
          ("/home/user/scripts?a=b" : String).data.getLast? ≠ some dquote :=
  ⟨by decide, value_extraction _ _ _ (by decide)⟩

theorem assign_RemoteUser (cfg : Config) (k v : String) :
    (assign cfg k v).RemoteUser = if k = "remote_user" then v else cfg.RemoteUser := by
  unfold assign
  split_ifs <;> (try split) <;> rfl

theorem assign_RemoteHost (cfg : Config) (k v : String) :
    (assign cfg k v).RemoteHost = if k = "remote_host" then v else cfg.RemoteHost := by
  unfold assign
  split_ifs <;> (try split) <;> first | rfl | (subst_vars; contradiction)

theorem assign_RemotePath (cfg : Config) (k v : String) :
    (assign cfg k v).RemotePath = if k = "remote_path" then v else cfg.RemotePath := by
  unfold assign
  split_ifs <;> (try split) <;> first | rfl | (subst_vars; contradiction)

theorem assign_Interval (cfg : Config) (k v : String) :
    (assign cfg k v).Interval
      = if k = "interval" then (Atoi v).getD cfg.Interval else cfg.Interval := by
  unfold assign
  split_ifs <;> (try split) <;> first | rfl | simp_all

theorem assign_MaxFailures (cfg : Config) (k v : String) :
    (assign cfg k v).MaxFailures
      = if k = "max_failures" then (Atoi v).getD cfg.MaxFailures else cfg.MaxFailures := by
  unfold assign
  split_ifs <;> (try split) <;> first | rfl | simp_all

theorem assign_ConfigPath (cfg : Config) (k v : String) :
    (assign cfg k v).ConfigPath = cfg.ConfigPath := by
  unfold assign
  split_ifs <;> (try split) <;> rfl

theorem assign_other (cfg : Config) (k v : String) (h1 : k ≠ "remote_user")
    (h2 : k ≠ "remote_host") (h3 : k ≠ "remote_path") (h4 : k ≠ "interval")
    (h5 : k ≠ "max_failures") : assign cfg k v = cfg := by
  unfold assign
  simp [h1, h2, h3, h4, h5]

theorem assign_bad_int (cfg : Config) (k v : String)
    (hk : k = "interval" ∨ k = "max_failures") (hv : Atoi v = none) : assign cfg k v = cfg := by
  unfold assign
  rcases hk with hk | hk <;> subst hk <;> simp [hv]

theorem foldl_field {α : Type} (g : Config → α) (sel : String → Option α)
    (h : ∀ cfg text, g (applyLine cfg text) = (sel text).getD (g cfg)) (lines : List String) :
    ∀ cfg, g (lines.foldl applyLine cfg) = ((lines.filterMap sel).getLast?).getD (g cfg) := by
  induction lines with
  | nil => intro cfg; rfl
  | cons l ls ih =>
    intro cfg
    rw [List.foldl_cons, ih, h, List.filterMap_cons]
    cases hs : sel l with
    | none => rfl
    | some a => simp [List.getLast?_cons]

theorem parseLines_RemoteUser (lines : List String) :
    (parseLines lines).RemoteUser = ((settings "remote_user" lines).getLast?).getD "username" := by
  refine foldl_field (fun c => c.RemoteUser) _ (fun cfg text => ?_) lines defaultConfig
  unfold applyLine
  cases hk : keyValue text with
  | none => rfl
  | some kv =>
    obtain ⟨k, v⟩ := kv
    simp only [assign_RemoteUser]
    split_ifs <;> rfl

theorem parseLines_RemoteHost (lines : List String) :
    (parseLines lines).RemoteHost
      = ((settings "remote_host" lines).getLast?).getD "xxx.xxx.xxx.xxx" := by
  refine foldl_field (fun c => c.RemoteHost) _ (fun cfg text => ?_) lines defaultConfig
  unfold applyLine
  cases hk : keyValue text with
  | none => rfl
  | some kv =>
    obtain ⟨k, v⟩ := kv
    simp only [assign_RemoteHost]
    split_ifs <;> rfl

theorem parseLines_RemotePath (lines : List String) :
    (parseLines lines).RemotePath = ((settings "remote_path" lines).getLast?).getD "~/scripts/" := by
  refine foldl_field (fun c => c.RemotePath) _ (fun cfg text => ?_) lines defaultConfig
  unfold applyLine
  cases hk : keyValue text with
  | none => rfl
  | some kv =>
    obtain ⟨k, v⟩ := kv
    simp only [assign_RemotePath]
    split_ifs <;> rfl

theorem parseLines_Interval (lines : List String) :
    (parseLines lines).Interval = ((intSettings "interval" lines).getLast?).getD 3 := by
  refine foldl_field (fun c => c.Interval) _ (fun cfg text => ?_) lines defaultConfig
  unfold applyLine
  cases hk : keyValue text with
  | none => rfl
  | some kv =>
    obtain ⟨k, v⟩ := kv
    simp only [assign_Interval]
    split_ifs <;> rfl

theorem parseLines_MaxFailures (lines : List String) :
    (parseLines lines).MaxFailures = ((intSettings "max_failures" lines).getLast?).getD 10 := by
  refine foldl_field (fun c => c.MaxFailures) _ (fun cfg text => ?_) lines defaultConfig
  unfold applyLine
  cases hk : keyValue text with
  | none => rfl
  | some kv =>
    obtain ⟨k, v⟩ := kv
    simp only [assign_MaxFailures]
    split_ifs <;> rfl

theorem foldl_ConfigPath (lines : List String) :
    ∀ cfg, (lines.foldl applyLine cfg).ConfigPath = cfg.ConfigPath := by
  induction lines with
  | nil => intro cfg; rfl
  | cons l ls ih =>
    intro cfg
    rw [List.foldl_cons, ih]
    unfold applyLine
    cases hk : keyValue l with
    | none => rfl
    | some kv => exact assign_ConfigPath _ _ _

theorem trimFunc_subset (p : Char → Bool) (l : List Char) : trimFunc p l ⊆ l := by
  obtain ⟨a, b, hab, -⟩ := trimFunc_spec p l
  intro c hc
  rw [hab]
  simp [hc]

theorem keyValue_no_eq (text : String) (h : '=' ∉ text.data) : keyValue text = none := by
  unfold keyValue
  simp only
  split_ifs with hskip
  · rfl
  · have hline : '=' ∉ (TrimSpace text).data := fun hc => h (trimFunc_subset _ _ hc)
    have hdrop : (TrimSpace text).data.dropWhile (fun c => c != '=') = [] := by
      rw [List.dropWhile_eq_nil_iff]
      intro c hc
      have : c ≠ '=' := fun heq => hline (heq ▸ hc)
      simpa using this
    simp [SplitN2, hdrop]

theorem trimFunc_unique (p : Char → Bool) (s t : List Char) (h : IsTrim p s t) :
    trimFunc p s = t := by
  obtain ⟨a, b, hs, ha, hb, hhead, hlast⟩ := h
  subst hs
  unfold trimFunc
  cases t with
  | nil =>
    have hall : ∀ c ∈ a ++ [] ++ b, p c = true := by
      intro c hc
      simp only [List.append_nil, List.mem_append] at hc
      rcases hc with hc | hc
      · exact ha c hc
      · exact hb c hc
    rw [List.dropWhile_eq_nil_iff.2 hall]
    rfl
  | cons x t1 =>
    have hx : p x = false := hhead x rfl
    have h1 : (a ++ x :: t1 ++ b).dropWhile p = x :: t1 ++ b := by
      rw [List.append_assoc, List.dropWhile_append_of_pos ha]
      simp [List.dropWhile_cons, hx]
    rw [h1, List.reverse_append,
      List.dropWhile_append_of_pos (fun c hc => hb c (List.mem_reverse.1 hc))]
    cases hr : (x :: t1).reverse with
    | nil => simp at hr
    | cons y r =>
      have hy : p y = false := by
        apply hlast y
        rw [← List.head?_reverse, hr]
        rfl
      simp only [List.dropWhile_cons, hy]
      rw [← hr]
      simp

theorem isTrim_trimFunc (p : Char → Bool) (s : List Char) : IsTrim p s (trimFunc p s) :=
  trimFunc_spec p s

theorem trimFunc_quote (l : List Char) :
    trimFunc (fun c => (String.singleton dquote).data.contains c) l
      = trimFunc (fun c => c == dquote) l := by
  have : (fun c => (String.singleton dquote).data.contains c) = (fun c : Char => c == dquote) := by
    funext c
    by_cases h : c = dquote <;> simp [String.singleton, h]
  rw [this]

theorem HasPrefix_hash (l : List Char) :
    HasPrefix ⟨l⟩ "#" = true ↔ l.head? = some '#' := by
  unfold HasPrefix
  rw [show ("#" : String).data = ['#'] from rfl]
  cases l with
  | nil => simp [List.isPrefixOf]
  | cons c r =>
    simp only [List.isPrefixOf, Bool.and_true, beq_iff_eq, List.head?_cons, Option.some.injEq]
    exact eq_comm

theorem SplitN2_of_split (s : String) (before after : List Char)
    (h : s.data = before ++ '=' :: after) (hb : '=' ∉ before) :
    SplitN2 s '=' = [⟨before⟩, ⟨after⟩] := by
  have hall : ∀ c ∈ before, (c != '=') = true := by
    intro c hc
    have : c ≠ '=' := fun heq => hb (heq ▸ hc)
    simpa using this
  have hd : s.data.dropWhile (fun c => c != '=') = '=' :: after := by
    rw [h, List.dropWhile_append_of_pos hall]
    simp [List.dropWhile_cons]
  have ht : s.data.takeWhile (fun c => c != '=') = before := by
    rw [h, List.takeWhile_append_of_pos hall]
    simp [List.takeWhile_cons]
  unfold SplitN2
  rw [hd, ht]

theorem SplitN2_cases (s : String) :
    SplitN2 s '=' = [s] ∨ ∃ k v, SplitN2 s '=' = [k, v] := by
  unfold SplitN2
  cases s.data.dropWhile (fun c => c != '=') with
  | nil => exact Or.inl rfl
  | cons x after => exact Or.inr ⟨_, _, rfl⟩

theorem keyValue_of_sets (name text value : String) (h : Sets name text value) :
    keyValue text = some (name, value) := by
  obtain ⟨line, before, after, inner, hline, hne, hhash, hsplit, hnot, hkey, hin, hval⟩ := h
  have h1 : TrimSpace text = ⟨line⟩ := by
    show (⟨trimFunc isSpace text.data⟩ : String) = ⟨line⟩
    rw [trimFunc_unique _ _ _ hline]
  have h2 : SplitN2 ⟨line⟩ '=' = [⟨before⟩, ⟨after⟩] := SplitN2_of_split ⟨line⟩ before after hsplit hnot
  have h3 : TrimSpace ⟨before⟩ = name := by
    show (⟨trimFunc isSpace before⟩ : String) = name
    rw [trimFunc_unique _ _ _ hkey]
  have h4 : Trim (TrimSpace ⟨after⟩) (String.singleton dquote) = value := by
    show (⟨trimFunc _ (trimFunc isSpace after)⟩ : String) = value
    rw [trimFunc_unique _ _ _ hin, trimFunc_quote, trimFunc_unique _ _ _ hval]
  have h5 : ¬ ((⟨line⟩ : String) = "" ∨ HasPrefix ⟨line⟩ "#" = true) := by
    rintro (h | h)
    · exact hne (congrArg String.data h)
    · exact hhash ((HasPrefix_hash line).1 h)
  unfold keyValue
  simp only [h1, h5, if_false, h2, h3, h4]

theorem sets_of_keyValue (name text value : String) (h : keyValue text = some (name, value)) :
    Sets name text value := by
  unfold keyValue at h
  simp only at h
  split_ifs at h with hskip
  rcases SplitN2_cases (TrimSpace text) with h1 | ⟨k, v, h1⟩
  · rw [h1] at h
    exact Option.noConfusion h
  · rw [h1] at h
    simp only [Option.some.injEq, Prod.mk.injEq] at h
    obtain ⟨hk, hv⟩ := h
    obtain ⟨hdata, hnot⟩ := SplitN2_pair _ _ _ _ h1
    refine ⟨(TrimSpace text).data, k.data, v.data, (TrimSpace v).data, isTrim_trimFunc _ _, ?_, ?_,
      hdata, hnot, ?_, isTrim_trimFunc _ _, ?_⟩
    · intro hnil
      exact hskip (Or.inl (String.ext hnil))
    · intro hh
      exact hskip (Or.inr ((HasPrefix_hash _).2 hh))
    · rw [← hk]
      exact isTrim_trimFunc _ _
    · rw [← hv]
      show IsTrim _ _ (trimFunc _ (TrimSpace v).data)
      rw [trimFunc_quote]
      exact isTrim_trimFunc _ _

theorem filterMap_last {α : Type} (sel : String → Option α) (pre : List String) (text : String)
    (post : List String) (a : α) (h1 : sel text = some a) (h2 : ∀ t ∈ post, sel t = none) :
    ((pre ++ text :: post).filterMap sel).getLast? = some a := by
  have hpost : post.filterMap sel = [] := by
    rw [List.filterMap_eq_nil_iff]
    exact h2
  rw [List.filterMap_append, List.filterMap_cons, h1, hpost]
  simp

theorem settings_last (name : String) (lines : List String) (v : String)
    (h : LastSets name lines v) : (settings name lines).getLast? = some v := by
  obtain ⟨pre, text, post, hl, hs, hpost⟩ := h
  subst hl
  refine filterMap_last _ pre text post v ?_ ?_
  · simp [keyValue_of_sets _ _ _ hs]
  · intro t ht
    cases hk : keyValue t with
    | none => rfl
    | some kv =>
      obtain ⟨k, w⟩ := kv
      by_cases hkn : k = name
      · subst hkn
        exact absurd (sets_of_keyValue _ _ _ hk) (hpost t ht w)
      · simp [hkn]

theorem settings_never (name : String) (lines : List String)
    (h : ∀ t ∈ lines, ∀ w, ¬ Sets name t w) : settings name lines = [] := by
  unfold settings
  rw [List.filterMap_eq_nil_iff]
  intro t ht
  cases hk : keyValue t with
  | none => rfl
  | some kv =>
    obtain ⟨k, w⟩ := kv
    by_cases hkn : k = name
    · subst hkn
      exact absurd (sets_of_keyValue _ _ _ hk) (h t ht w)
    · simp [hkn]

theorem intSettings_last (name : String) (lines : List String) (i : Int)
    (h : LastSetsInt name lines i) : (intSettings name lines).getLast? = some i := by
  obtain ⟨pre, text, post, v, hl, hs, hi, hpost⟩ := h
  subst hl
  refine filterMap_last _ pre text post i ?_ ?_
  · simp [keyValue_of_sets _ _ _ hs, hi]
  · intro t ht
    cases hk : keyValue t with
    | none => rfl
    | some kv =>
      obtain ⟨k, w⟩ := kv
      by_cases hkn : k = name
      · subst hkn
        cases hw : Atoi w with
        | none => simp [hw]
        | some j => exact absurd hw (hpost t ht w j (sets_of_keyValue _ _ _ hk))
      · simp [hkn]

theorem intSettings_never (name : String) (lines : List String)
    (h : ∀ t ∈ lines, ∀ w j, Sets name t w → Atoi w ≠ some j) : intSettings name lines = [] := by
  unfold intSettings
  rw [List.filterMap_eq_nil_iff]
  intro t ht
  cases hk : keyValue t with
  | none => rfl
  | some kv =>
    obtain ⟨k, w⟩ := kv
    by_cases hkn : k = name
    · subst hkn
      cases hw : Atoi w with
      | none => simp [hw]
      | some j => exact absurd hw (h t ht w j (sets_of_keyValue _ _ _ hk))
    · simp [hkn]

theorem applyLine_unnamed (cfg : Config) (text : String)
    (h : ∀ name ∈ ["remote_user", "remote_host", "remote_path", "interval", "max_failures"],
      ∀ v, ¬ Sets name text v) : applyLine cfg text = cfg := by
  unfold applyLine
  cases hk : keyValue text with
  | none => rfl
  | some kv =>
    obtain ⟨k, v⟩ := kv
    have hs := sets_of_keyValue _ _ _ hk
    have hn : ∀ name ∈ ["remote_user", "remote_host", "remote_path", "interval", "max_failures"],
        k ≠ name := fun name hname heq => h name hname v (heq ▸ hs)
    exact assign_other cfg k v (hn _ (by simp)) (hn _ (by simp)) (hn _ (by simp))
      (hn _ (by simp)) (hn _ (by simp))

/-- C5. For a file that opens and scans without error, `parseConfig` returns no error, and
each of the five settings holds the value of the last line naming it (for the two integer
settings: the last such line whose value parses as an integer) and its hard-coded default when
no line does. A line that names none of the five settings (a comment, a blank line, an
unrecognised key, no `=`) changes nothing. The three lines `remote_user=testuser`,
`interval=5`, `max_failures=15` give exactly these values with the host and the path at their
defaults; white space around the key and the value is ignored, a `#` inside a value does not
make a comment, and a zero-width space is not white space. -/
theorem parseConfig_last_wins :
    (∀ (fs : FS) (path : String) (file : Scanned), fs.scan path = .ok file → file.err = none →
      (parseConfig fs path).2 = none ∧
      (∀ v, LastSets "remote_user" file.lines v → (parseConfig fs path).1.RemoteUser = v) ∧
      ((∀ t ∈ file.lines, ∀ w, ¬ Sets "remote_user" t w) →
        (parseConfig fs path).1.RemoteUser = "username") ∧
      (∀ v, LastSets "remote_host" file.lines v → (parseConfig fs path).1.RemoteHost = v) ∧
      ((∀ t ∈ file.lines, ∀ w, ¬ Sets "remote_host" t w) →
        (parseConfig fs path).1.RemoteHost = "xxx.xxx.xxx.xxx") ∧
      (∀ v, LastSets "remote_path" file.lines v → (parseConfig fs path).1.RemotePath = v) ∧
      ((∀ t ∈ file.lines, ∀ w, ¬ Sets "remote_path" t w) →
        (parseConfig fs path).1.RemotePath = "~/scripts/") ∧
      (∀ i, LastSetsInt "interval" file.lines i → (parseConfig fs path).1.Interval = i) ∧
      ((∀ t ∈ file.lines, ∀ w j, Sets "interval" t w → Atoi w ≠ some j) →
        (parseConfig fs path).1.Interval = 3) ∧
      (∀ i, LastSetsInt "max_failures" file.lines i →
        (parseConfig fs path).1.MaxFailures = i) ∧
      ((∀ t ∈ file.lines, ∀ w j, Sets "max_failures" t w → Atoi w ≠ some j) →
        (parseConfig fs path).1.MaxFailures = 10)) ∧
    (∀ (cfg : Config) (text : String),
      (∀ name ∈ ["remote_user", "remote_host", "remote_path", "interval", "max_failures"],
        ∀ v, ¬ Sets name text v) → applyLine cfg text = cfg) ∧
    (∀ (cfg : Config) (text : String), '=' ∉ text.data → applyLine cfg text = cfg) ∧
    parseLines (ScanLines "remote_user=testuser\ninterval=5\nmax_failures=15")
      = { defaultConfig with RemoteUser := "testuser", Interval := 5, MaxFailures := 15 } ∧
    parseLines ["\x09 remote_user =\u3000x\x0d", "remote_path=/srv/#1",
        " # remote_host=h", "interval=\u200b7", "Interval=8", "max_failures = \x2212\x22 "]
      = { defaultConfig with RemoteUser := "x", RemotePath := "/srv/#1", MaxFailures := 12 } := by
  refine ⟨?_, applyLine_unnamed, ?_, by decide, by decide⟩
  · intro fs path file hscan herr
    have hp : parseConfig fs path = ({ parseLines file.lines with LoadedFrom := path }, none) := by
      simp [parseConfig, hscan, herr]
    rw [hp]
    refine ⟨rfl, ?_, ?_, ?_, ?_, ?_, ?_, ?_, ?_, ?_, ?_⟩
    · intro v h
      show (parseLines file.lines).RemoteUser = v
      rw [parseLines_RemoteUser, settings_last _ _ _ h]; rfl
    · intro h
      show (parseLines file.lines).RemoteUser = _
      rw [parseLines_RemoteUser, settings_never _ _ h]; rfl
    · intro v h
      show (parseLines file.lines).RemoteHost = v
      rw [parseLines_RemoteHost, settings_last _ _ _ h]; rfl
    · intro h
      show (parseLines file.lines).RemoteHost = _
      rw [parseLines_RemoteHost, settings_never _ _ h]; rfl
    · intro v h
      show (parseLines file.lines).RemotePath = v
      rw [parseLines_RemotePath, settings_last _ _ _ h]; rfl
    · intro h
      show (parseLines file.lines).RemotePath = _
      rw [parseLines_RemotePath, settings_never _ _ h]; rfl
    · intro i h
      show (parseLines file.lines).Interval = i
      rw [parseLines_Interval, intSettings_last _ _ _ h]; rfl
    · intro h
      show (parseLines file.lines).Interval = _
      rw [parseLines_Interval, intSettings_never _ _ h]; rfl
    · intro i h
      show (parseLines file.lines).MaxFailures = i
      rw [parseLines_MaxFailures, intSettings_last _ _ _ h]; rfl
    · intro h
      show (parseLines file.lines).MaxFailures = _
      rw [parseLines_MaxFailures, intSettings_never _ _ h]; rfl
  · intro cfg text h
    simp [applyLine, keyValue_no_eq text h]

theorem not_sets_of_key (name text k v : String) (hk : keyValue text = some (k, v))
    (hne : k ≠ name) : ∀ w, ¬ Sets name text w := by
  intro w hs
  have := keyValue_of_sets _ _ _ hs
  rw [hk] at this
  simp only [Option.some.injEq, Prod.mk.injEq] at this
  exact hne this.1

theorem not_sets_of_skipped (name text : String) (hk : keyValue text = none) :
    ∀ w, ¬ Sets name text w := by
  intro w hs
  have := keyValue_of_sets _ _ _ hs
  rw [hk] at this
  exact Option.noConfusion this

/-- C5, instance: `remote_user` is given twice, the second time with white space around key
and value, and is followed by a comment that mentions it, a line with another key and a line
without `=`; `interval` is given twice and the second value does not parse. -/
theorem parseConfig_last_wins_witness :
    LastSets "remote_user"
        ["remote_user=a", "interval=7", " remote_user = \x22testuser\x22 ", "interval=x",
          "# remote_user=b", "color=blue", "no separator"] "testuser" ∧
      LastSetsInt "interval"
        ["remote_user=a", "interval=7", " remote_user = \x22testuser\x22 ", "interval=x",
          "# remote_user=b", "color=blue", "no separator"] 7 ∧
      (parseConfig (singleFile "test.conf"
        ["remote_user=a", "interval=7", " remote_user = \x22testuser\x22 ", "interval=x",
          "# remote_user=b", "color=blue", "no separator"]) "test.conf").1.RemoteUser
        = "testuser" ∧
      (parseConfig (singleFile "test.conf"
        ["remote_user=a", "interval=7", " remote_user = \x22testuser\x22 ", "interval=x",
          "# remote_user=b", "color=blue", "no separator"]) "test.conf").1.Interval = 7 := by
  have hu : LastSets "remote_user"
      ["remote_user=a", "interval=7", " remote_user = \x22testuser\x22 ", "interval=x",
        "# remote_user=b", "color=blue", "no separator"] "testuser" := by
    refine ⟨["remote_user=a", "interval=7"], " remote_user = \x22testuser\x22 ",
      ["interval=x", "# remote_user=b", "color=blue", "no separator"], rfl,
      sets_of_keyValue _ _ _ (by decide), ?_⟩
    intro t ht
    simp only [List.mem_cons, List.mem_singleton, List.not_mem_nil, or_false] at ht
    rcases ht with rfl | rfl | rfl | rfl
    · exact not_sets_of_key _ _ "interval" "x" (by decide) (by decide)
    · exact not_sets_of_skipped _ _ (by decide)
    · exact not_sets_of_key _ _ "color" "blue" (by decide) (by decide)
    · exact not_sets_of_skipped _ _ (by decide)
  have hi : LastSetsInt "interval"
      ["remote_user=a", "interval=7", " remote_user = \x22testuser\x22 ", "interval=x",
        "# remote_user=b", "color=blue", "no separator"] 7 := by
    refine ⟨["remote_user=a"], "interval=7",
      [" remote_user = \x22testuser\x22 ", "interval=x", "# remote_user=b", "color=blue",
        "no separator"], "7", rfl, sets_of_keyValue _ _ _ (by decide), by decide, ?_⟩
    intro t ht w j hs
    simp only [List.mem_cons, List.mem_singleton, List.not_mem_nil, or_false] at ht
    rcases ht with rfl | rfl | rfl | rfl | rfl
    · exact absurd hs (not_sets_of_key _ _ "remote_user" "testuser" (by decide) (by decide) w)
    · have := keyValue_of_sets _ _ _ hs
      rw [show keyValue "interval=x" = some ("interval", "x") by decide] at this
      simp only [Option.some.injEq, Prod.mk.injEq, true_and] at this
      rw [← this, show Atoi "x" = none by decide]
      exact fun h => Option.noConfusion h
    · exact absurd hs (not_sets_of_skipped _ _ (by decide) w)
    · exact absurd hs (not_sets_of_key _ _ "color" "blue" (by decide) (by decide) w)
    · exact absurd hs (not_sets_of_skipped _ _ (by decide) w)
  have h := parseConfig_last_wins.1 (singleFile "test.conf"
    ["remote_user=a", "interval=7", " remote_user = \x22testuser\x22 ", "interval=x",
      "# remote_user=b", "color=blue", "no separator"]) "test.conf" _ rfl rfl
  exact ⟨hu, hi, h.2.1 _ hu, h.2.2.2.2.2.2.2.1 _ hi⟩

/-- C7. A line `interval=v` or `max_failures=v` whose value is not a valid integer leaves the
whole configuration as it was before the line, and the result of `parseConfig` (configuration
and error) is the one of the same file without that line. -/
theorem malformed_number_ignored (text k v : String) (hkv : keyValue text = some (k, v))
    (hk : k = "interval" ∨ k = "max_failures") (hv : Atoi v = none) :
    (∀ cfg : Config, applyLine cfg text = cfg) ∧
      ∀ (fs fs2 : FS) (path : String) (pre post : List String) (e : Option String),
        fs.scan path = .ok { lines := pre ++ text :: post, err := e } →
        fs2.scan path = .ok { lines := pre ++ post, err := e } →
        parseConfig fs path = parseConfig fs2 path := by
  have h1 : ∀ cfg : Config, applyLine cfg text = cfg := by
    intro cfg
    simp [applyLine, hkv, assign_bad_int cfg k v hk hv]
  refine ⟨h1, ?_⟩
  intro fs fs2 path pre post e hs hs2
  simp [parseConfig, hs, hs2, parseLines, List.foldl_append, h1]

/-- C7, instance: `interval=abc` between two valid lines. -/
theorem malformed_number_ignored_witness :
    keyValue "interval=abc" = some ("interval", "abc") ∧ Atoi "abc" = none ∧
      parseConfig (singleFile "c" ["interval=7", "interval=abc", "max_failures=2"]) "c"
        = parseConfig (singleFile "c" ["interval=7", "max_failures=2"]) "c" :=
  ⟨by decide, by decide,
    (malformed_number_ignored "interval=abc" "interval" "abc" (by decide) (Or.inl rfl)
      (by decide)).2 (singleFile "c" ["interval=7", "interval=abc", "max_failures=2"])
      (singleFile "c" ["interval=7", "max_failures=2"]) "c" ["interval=7"] ["max_failures=2"]
      none rfl rfl⟩

/-! ## Configuration resolution -/

theorem parseConfig_LoadedFrom (fs : FS) (path : String) (h : (parseConfig fs path).2 = none) :
    { (parseConfig fs path).1 with LoadedFrom := path } = (parseConfig fs path).1 := by
  unfold parseConfig at h ⊢
  cases hs : fs.scan path with
  | error e => simp [hs] at h
  | ok file => rfl

theorem tryPaths_cons (fs : FS) (d : Config) (p : String) (rest : List String) :
    tryPaths fs d (p :: rest)
      = if usable fs p = true then ((parseConfig fs p).1, none) else tryPaths fs d rest := by
  unfold usable
  rw [tryPaths]
  cases hst : fs.stat p with
  | error e => simp
  | ok info =>
    cases hp : parseConfig fs p with
    | mk cfg err =>
      cases err with
      | none =>
        have := parseConfig_LoadedFrom fs p (by rw [hp])
        rw [hp] at this
        simp [this]
      | some e => simp

theorem tryPaths_no_error (fs : FS) (d : Config) (l : List String) :
    (tryPaths fs d l).2 = none := by
  induction l with
  | nil => rfl
  | cons p rest ih =>
    rw [tryPaths_cons]
    split_ifs
    · rfl
    · exact ih

theorem tryPaths_first (fs : FS) (d : Config) (pre : List String) (p : String)
    (post : List String) (hpre : ∀ q ∈ pre, usable fs q = false) (hp : usable fs p = true) :
    tryPaths fs d (pre ++ p :: post) = ((parseConfig fs p).1, none) := by
  induction pre with
  | nil => simp [tryPaths_cons, hp]
  | cons q qs ih =>
    have hq : usable fs q = false := hpre q (List.mem_cons_self _ _)
    rw [List.cons_append, tryPaths_cons, hq]
    simpa using ih (fun x hx => hpre x (List.mem_cons_of_mem _ hx))

theorem tryPaths_none (fs : FS) (d : Config) (l : List String)
    (h : ∀ q ∈ l, usable fs q = false) : tryPaths fs d l = (d, none) := by
  induction l with
  | nil => rfl
  | cons q qs ih =>
    have hq : usable fs q = false := h q (List.mem_cons_self _ _)
    rw [tryPaths_cons, hq]
    simpa using ih (fun x hx => h x (List.mem_cons_of_mem _ hx))

theorem tryPaths_cases (fs : FS) (d : Config) (l : List String) :
    (tryPaths fs d l).1 = d ∨ ∃ p, (tryPaths fs d l).1 = (parseConfig fs p).1 := by
  induction l with
  | nil => exact Or.inl rfl
  | cons q qs ih =>
    rw [tryPaths_cons]
    split_ifs
    · exact Or.inr ⟨q, rfl⟩
    · exact ih

theorem usable_congr (fs fs2 : FS) (p : String) (h1 : fs2.stat p = fs.stat p)
    (h2 : fs2.scan p = fs.scan p) : usable fs2 p = usable fs p := by
  simp [usable, parseConfig, h1, h2]

theorem unixClean_ne_empty (path : String) : unixClean path ≠ "" := by
  have key : ∀ out : List Char, (if out.isEmpty then "." else (⟨out⟩ : String)) ≠ "" := by
    intro out
    cases out with
    | nil => decide
    | cons c r =>
      intro hc
      exact List.noConfusion (congrArg String.data hc)
  exact key _

theorem unixDir_ne_empty (path : String) : unixDir path ≠ "" := unixClean_ne_empty _

/-- C4. Configuration resolution. `loadConfig` never returns an error. With a non-empty
explicit path the result is the parsed content of that file when it exists and parses, the
hard-coded defaults otherwise, and it depends on nothing but that file. With an empty explicit
path the candidates are, in this order: the file in the working directory; the file next to
the executable; the file in the target directory, which is the target itself when it is a
directory and `Dir` of the target when it is a file (no such candidate when the target path is
empty or cannot be examined); the system-wide file (except on Windows). The first candidate
that exists and parses gives the result, and when there is none the result is the hard-coded
defaults. -/
theorem loadConfig_resolution (env : Env) (fs : FS) (targetPath explicitConfigPath : String) :
    (loadConfig env fs targetPath explicitConfigPath).2 = none ∧
    (explicitConfigPath ≠ "" →
      (usable fs explicitConfigPath = true →
        (loadConfig env fs targetPath explicitConfigPath).1
          = (parseConfig fs explicitConfigPath).1) ∧
      (usable fs explicitConfigPath = false →
        (loadConfig env fs targetPath explicitConfigPath).1 = scriptDefaults) ∧
      (∀ (env2 : Env) (fs2 : FS) (target2 : String),
        fs2.stat explicitConfigPath = fs.stat explicitConfigPath →
        fs2.scan explicitConfigPath = fs.scan explicitConfigPath →
        loadConfig env2 fs2 target2 explicitConfigPath
          = loadConfig env fs targetPath explicitConfigPath)) ∧
    (explicitConfigPath = "" →
      ∀ cands : List String,
        cands = [env.Join env.cwd "sync_on_change.conf",
                  env.Join (env.Dir env.executable) "sync_on_change.conf"]
              ++ (match fs.stat targetPath with
                  | .ok info =>
                    if targetPath = "" then []
                    else if info.isDir = true then [env.Join targetPath "sync_on_change.conf"]
                    else if env.Dir targetPath = "" then []
                    else [env.Join (env.Dir targetPath) "sync_on_change.conf"]
                  | .error _ => [])
              ++ (if env.GOOS = "windows" then []
                  else ["/etc/sync_on_change/sync_on_change.conf"]) →
        (∀ (pre : List String) (p : String) (post : List String), cands = pre ++ p :: post →
          (∀ q ∈ pre, usable fs q = false) → usable fs p = true →
          (loadConfig env fs targetPath explicitConfigPath).1 = (parseConfig fs p).1) ∧
        ((∀ q ∈ cands, usable fs q = false) →
          (loadConfig env fs targetPath explicitConfigPath).1 = scriptDefaults)) ∧
    scriptDefaults.RemoteUser = "username" ∧ scriptDefaults.RemoteHost = "xxx.xxx.xxx.xxx" ∧
    scriptDefaults.RemotePath = "~/scripts/" ∧ scriptDefaults.Interval = 3 ∧
    scriptDefaults.MaxFailures = 10 := by
  refine ⟨tryPaths_no_error _ _ _, ?_, ?_, rfl, rfl, rfl, rfl, rfl⟩
  · intro hne
    have hsp : ∀ (e : Env) (f : FS) (t : String),
        searchPaths e f t explicitConfigPath = [explicitConfigPath] := by
      intro e f t
      simp [searchPaths, hne]
    refine ⟨fun hu => ?_, fun hu => ?_, fun env2 fs2 target2 h1 h2 => ?_⟩
    · simp [loadConfig, hsp, tryPaths_cons, hu]
    · simp [loadConfig, hsp, tryPaths_cons, hu, tryPaths]
    · have hu := usable_congr fs fs2 explicitConfigPath h1 h2
      have hp : parseConfig fs2 explicitConfigPath = parseConfig fs explicitConfigPath := by
        simp [parseConfig, h2]
      simp [loadConfig, hsp, tryPaths_cons, hu, hp, tryPaths]
  · intro he cands hc
    have hsp : searchPaths env fs targetPath explicitConfigPath = cands := by
      rw [hc]
      unfold searchPaths targetDir
      simp only [he, ne_eq, not_true_eq_false, if_false, confName, systemConf]
      cases hst : fs.stat targetPath with
      | error e => split_ifs <;> simp_all
      | ok info =>
        by_cases ht : targetPath = ""
        · split_ifs <;> simp_all
        · by_cases hd : info.isDir = true
          · split_ifs <;> simp_all
          · by_cases hdir : env.Dir targetPath = ""
            · split_ifs <;> simp_all
            · split_ifs <;> simp_all
    refine ⟨fun pre p post hcp hpre hp => ?_, fun hall => ?_⟩
    · simp [loadConfig, hsp, hcp, tryPaths_first fs _ pre p post hpre hp]
    · simp [loadConfig, hsp, tryPaths_none fs _ cands hall]

/-- C4, instance: no explicit path; the target is the file `/work/proj/script.sh`, then the
directory `/work/proj`. Nothing exists in the working directory or next to the executable, so
in both cases the file in the target directory `/work/proj` is the first usable candidate and
gives the result, before the system-wide file, which exists as well. -/
theorem loadConfig_resolution_witness :
    usable projectFS "/work/proj/sync_on_change.conf" = true ∧
      usable projectFS "/etc/sync_on_change/sync_on_change.conf" = true ∧
      (loadConfig linuxEnv projectFS "/work/proj/script.sh" "").1
        = (parseConfig projectFS "/work/proj/sync_on_change.conf").1 ∧
      (loadConfig linuxEnv projectFS "/work/proj" "").1
        = (parseConfig projectFS "/work/proj/sync_on_change.conf").1 ∧
      (parseConfig projectFS "/work/proj/sync_on_change.conf").1.RemoteUser = "project" :=
  ⟨by decide, by decide,
    ((loadConfig_resolution linuxEnv projectFS "/work/proj/script.sh" "").2.2.1 rfl _ rfl).1
      ["/work/sync_on_change.conf", "/opt/tool/sync_on_change.conf"]
      "/work/proj/sync_on_change.conf" ["/etc/sync_on_change/sync_on_change.conf"]
      (by decide) (by decide) (by decide),
    ((loadConfig_resolution linuxEnv projectFS "/work/proj" "").2.2.1 rfl _ rfl).1
      ["/work/sync_on_change.conf", "/opt/tool/sync_on_change.conf"]
      "/work/proj/sync_on_change.conf" ["/etc/sync_on_change/sync_on_change.conf"]
      (by decide) (by decide) (by decide),
    by decide⟩

/-- C9, as stated, fails: the file `interval=0`, `max_failures=-1` is accepted as it is, by
`parseConfig` and by `loadConfig`. -/
theorem config_range_counterexample :
    (parseConfig (singleFile "c.conf" ["interval=0", "max_failures=-1"]) "c.conf").2 = none ∧
      (parseConfig (singleFile "c.conf" ["interval=0", "max_failures=-1"]) "c.conf").1.Interval
        = 0 ∧
      (parseConfig (singleFile "c.conf" ["interval=0", "max_failures=-1"]) "c.conf").1.MaxFailures
        = -1 ∧
      ¬ (1 ≤ (loadConfig linuxEnv (singleFile "c.conf" ["interval=0", "max_failures=-1"])
          "target" "c.conf").1.Interval) ∧
      ¬ (1 ≤ (loadConfig linuxEnv (singleFile "c.conf" ["interval=0", "max_failures=-1"])
          "target" "c.conf").1.MaxFailures) := by
  decide

theorem getLast_getD_ge (l : List Int) (d : Int) (hd : 1 ≤ d) (hl : ∀ i ∈ l, 1 ≤ i) :
    1 ≤ (l.getLast?).getD d := by
  cases h : l.getLast? with
  | none => exact hd
  | some a => exact hl a (List.mem_of_getLast?_eq_some h)

theorem parseConfig_range (fs : FS) (path : String)
    (hfiles : ∀ (p : String) (file : Scanned), fs.scan p = .ok file →
      ∀ i ∈ intSettings "interval" file.lines ++ intSettings "max_failures" file.lines, 1 ≤ i) :
    1 ≤ (parseConfig fs path).1.Interval ∧ 1 ≤ (parseConfig fs path).1.MaxFailures := by
  unfold parseConfig
  cases hs : fs.scan path with
  | error e =>
    refine ⟨?_, ?_⟩
    · show (1 : Int) ≤ defaultConfig.Interval
      decide
    · show (1 : Int) ≤ defaultConfig.MaxFailures
      decide
  | ok file =>
    have h := hfiles path file hs
    refine ⟨?_, ?_⟩
    · show 1 ≤ (parseLines file.lines).Interval
      rw [parseLines_Interval]
      exact getLast_getD_ge _ _ (by decide) (fun i hi => h i (List.mem_append_left _ hi))
    · show 1 ≤ (parseLines file.lines).MaxFailures
      rw [parseLines_MaxFailures]
      exact getLast_getD_ge _ _ (by decide) (fun i hi => h i (List.mem_append_right _ hi))

/-- C9, amended. There is no range check: the poll interval and the maximum of consecutive
failures of a configuration produced by `parseConfig` or `loadConfig` are at least 1 provided
every integer value that a configuration file gives to `interval` or `max_failures` is at
least 1 (the defaults are 3 and 10). -/
theorem config_range (env : Env) (fs : FS) (targetPath explicitConfigPath : String)
    (hfiles : ∀ (p : String) (file : Scanned), fs.scan p = .ok file →
      ∀ i ∈ intSettings "interval" file.lines ++ intSettings "max_failures" file.lines, 1 ≤ i) :
    (∀ path, 1 ≤ (parseConfig fs path).1.Interval ∧ 1 ≤ (parseConfig fs path).1.MaxFailures) ∧
      1 ≤ (loadConfig env fs targetPath explicitConfigPath).1.Interval ∧
      1 ≤ (loadConfig env fs targetPath explicitConfigPath).1.MaxFailures := by
  refine ⟨fun path => parseConfig_range fs path hfiles, ?_⟩
  unfold loadConfig
  rcases tryPaths_cases fs scriptDefaults
    (searchPaths env fs targetPath explicitConfigPath) with h | ⟨p, h⟩
  · rw [h]; exact ⟨by decide, by decide⟩
  · rw [h]; exact parseConfig_range fs p hfiles

/-- C9, instance: a file with `interval=5` and a `max_failures` line that does not parse. -/
theorem config_range_witness :
    (∀ (p : String) (file : Scanned),
        (singleFile "c.conf" ["interval=5", "max_failures=x"]).scan p = .ok file →
        ∀ i ∈ intSettings "interval" file.lines ++ intSettings "max_failures" file.lines,
          1 ≤ i) ∧
      1 ≤ (loadConfig linuxEnv (singleFile "c.conf" ["interval=5", "max_failures=x"])
          "target" "c.conf").1.Interval ∧
      1 ≤ (loadConfig linuxEnv (singleFile "c.conf" ["interval=5", "max_failures=x"])
          "target" "c.conf").1.MaxFailures := by
  have hf : ∀ (p : String) (file : Scanned),
      (singleFile "c.conf" ["interval=5", "max_failures=x"]).scan p = .ok file →
      ∀ i ∈ intSettings "interval" file.lines ++ intSettings "max_failures" file.lines,
        1 ≤ i := by
    intro p file hscan
    simp only [singleFile] at hscan
    split_ifs at hscan
    · have hfile : file = { lines := ["interval=5", "max_failures=x"], err := none } := by
        injection hscan with h
        exact h.symm
      subst hfile
      decide
  exact ⟨hf, (config_range linuxEnv _ "target" "c.conf" hf).2⟩

/-! ## Directory digest -/

theorem sha256Round_length (s : List Nat) (kw : Nat × Nat) (hs : s.length = 8) :
    (sha256Round s kw).length = 8 := by
  rcases s with _ | ⟨a, _ | ⟨b, _ | ⟨c, _ | ⟨d, _ | ⟨e, _ | ⟨f, _ | ⟨g, _ | ⟨h, _ | ⟨i, t⟩⟩⟩⟩⟩⟩⟩⟩⟩ <;>
    simp at hs
  simp [sha256Round]

theorem foldl_sha256Round_length (l : List (Nat × Nat)) :
    ∀ s : List Nat, s.length = 8 → (l.foldl sha256Round s).length = 8 := by
  induction l with
  | nil => intro s hs; exact hs
  | cons kw rest ih => intro s hs; exact ih _ (sha256Round_length s kw hs)

theorem sha256Block_length (h block : List Nat) (hh : h.length = 8) :
    (sha256Block h block).length = 8 := by
  unfold sha256Block
  rw [List.length_zipWith, foldl_sha256Round_length _ h hh, hh]
  rfl

theorem sha256Blocks_length (n : Nat) :
    ∀ (h bytes : List Nat), h.length = 8 → (sha256Blocks n h bytes).length = 8 := by
  induction n with
  | zero => intro h bytes hh; exact hh
  | succ n ih => intro h bytes hh; exact ih _ _ (sha256Block_length h _ hh)

theorem flatMap_length_const {α β : Type} (f : α → List β) (k : Nat)
    (hf : ∀ a, (f a).length = k) (l : List α) : (l.flatMap f).length = k * l.length := by
  induction l with
  | nil => simp
  | cons a t ih => simp [List.flatMap_cons, hf, ih]; ring

theorem sha256_length (msg : List Nat) : (sha256 msg).length = 32 := by
  unfold sha256
  simp only
  rw [flatMap_length_const wordBytes 4 (fun _ => rfl),
    sha256Blocks_length _ _ _ (by rfl)]

theorem hexEncode_length (bytes : List Nat) : (hexEncode bytes).data.length = 2 * bytes.length := by
  unfold hexEncode
  exact flatMap_length_const (fun b => [hexDigit (b / 16 % 16), hexDigit (b % 16)]) 2
    (fun _ => rfl) bytes

theorem walkAll_files (fs : FS) (content : String → List Nat) (entries : List WalkEntry)
    (herr : ∀ e ∈ entries, e.err = none)
    (hread : ∀ e ∈ entries, e.isDir = false → fs.read e.path = .ok (content e.path)) :
    ∀ written, walkAll fs written entries =
      .ok (written ++ (entries.filter (fun e => !e.isDir)).flatMap
        (fun e => stringBytes (hexEncode (sha256 (content e.path))))) := by
  induction entries with
  | nil => intro written; simp [walkAll]
  | cons e rest ih =>
    intro written
    have he := herr e (List.mem_cons_self _ _)
    have ih2 := ih (fun x hx => herr x (List.mem_cons_of_mem _ hx))
      (fun x hx => hread x (List.mem_cons_of_mem _ hx))
    cases hd : e.isDir with
    | true => simp [walkAll, walkFn, he, hd, ih2]
    | false =>
      have hr := hread e (List.mem_cons_self _ _) hd
      simp [walkAll, walkFn, he, hd, hashFile, hr, ih2, List.flatMap_cons]

/-- C8, as stated, fails: for a directory holding one empty file the program returns the
SHA-256 of the 64 hexadecimal characters of the file digest (`cd37...`), not the SHA-256 of
its 32 raw bytes (`5df6...`). -/
theorem directory_digest_counterexample :
    (calculateChecksum oneEmptyFile "d").toOption
        = some "cd372fb85148700fa88095e3492d3f9f5beb43e555e5ff26d95f5a6adc36f8e6" ∧
      hexEncode (sha256 ([([] : List Nat)].flatMap (fun content => sha256 content)))
        = "5df6e0e2761359d30a8275058e299fcc0381534545f55cf43e41983f5d4c9456" ∧
      (calculateChecksum oneEmptyFile "d").toOption
        ≠ some (hexEncode (sha256 ([([] : List Nat)].flatMap (fun content => sha256 content)))) := by
  decide!

/-- C8, amended. For a directory whose walk reports no error and whose files can all be read,
`calculateChecksum` returns the hexadecimal encoding of SHA-256 applied to the concatenation,
in traversal order, of the hexadecimal encodings (64 ASCII characters each) of
SHA-256(content(f)) over the non-directory entries `f`; directories contribute nothing, so a
tree without files has the digest of the empty input. -/
theorem directory_digest (fs : FS) (path : String) (info : FileInfo)
    (content : String → List Nat) (hstat : fs.stat path = .ok info) (hdir : info.isDir = true)
    (herr : ∀ e ∈ fs.walk path, e.err = none)
    (hread : ∀ e ∈ fs.walk path, e.isDir = false → fs.read e.path = .ok (content e.path)) :
    calculateChecksum fs path =
        .ok (hexEncode (sha256 (((fs.walk path).filter (fun e => !e.isDir)).flatMap
          (fun e => stringBytes (hexEncode (sha256 (content e.path))))))) ∧
      (∀ p, (stringBytes (hexEncode (sha256 (content p)))).length = 64) ∧
      ((∀ e ∈ fs.walk path, e.isDir = true) →
        calculateChecksum fs path
          = .ok "e3b0c44298fc1c149afbf4c8996fb92427ae41e4649b934ca495991b7852b855") := by
  have hmain : calculateChecksum fs path =
      .ok (hexEncode (sha256 (((fs.walk path).filter (fun e => !e.isDir)).flatMap
        (fun e => stringBytes (hexEncode (sha256 (content e.path))))))) := by
    unfold calculateChecksum
    simp [hstat, hdir, walkAll_files fs content (fs.walk path) herr hread []]
  refine ⟨hmain, ?_, ?_⟩
  · intro p
    show ((hexEncode (sha256 (content p))).data.map Char.toNat).length = 64
    rw [List.length_map, hexEncode_length, sha256_length]
  · intro hall
    have hnil : (fs.walk path).filter (fun e => !e.isDir) = [] := by
      rw [List.filter_eq_nil_iff]
      intro e he
      simp [hall e he]
    rw [hmain, hnil]
    have : hexEncode (sha256 [])
        = "e3b0c44298fc1c149afbf4c8996fb92427ae41e4649b934ca495991b7852b855" := by decide!
    simp [this]

/-- C8, instance: the directory with one empty file. -/
theorem directory_digest_witness :
    calculateChecksum oneEmptyFile "d" =
      .ok (hexEncode (sha256 (((oneEmptyFile.walk "d").filter (fun e => !e.isDir)).flatMap
        (fun e => stringBytes (hexEncode (sha256 ((fun _ => ([] : List Nat)) e.path))))))) :=
  (directory_digest oneEmptyFile "d" { isDir := true } (fun _ => []) rfl rfl (by decide)
    (by
      intro e he hd
      simp only [oneEmptyFile, if_true, List.mem_cons, List.mem_singleton, List.not_mem_nil,
        or_false] at he
      rcases he with rfl | rfl
      · exact Bool.noConfusion hd
      · rfl)).1

/-! ## File synchronisation -/

/-- C10, the failing input: the file target `script.sh`, `remote_path=/remote/path`, the copy
succeeds and the permission command fails. The function returns true, and the permission
command names `/remote/pathscript.sh`, not the copied file `/remote/path/script.sh`. -/
theorem file_chmod_path :
    syncTarget (singleFile "script.sh" []) (fun cmd => HasPrefix cmd "scp ") "script.sh"
        { defaultConfig with RemoteUser := "user", RemoteHost := "host",
                             RemotePath := "/remote/path" }
      = (true, [("scp \x27script.sh\x27 \x27user@host:/remote/path\x27", true),
          ("ssh user@host \x27chmod +x /remote/pathscript.sh\x27", false)]) := by
  decide

end SyncTool

